import Mathlib

/-!
# Verification of the adaptive transcription pipeline

Shallow embedding of the transcription core of the repository
(`app/services/production_whisper_service.py` and
`app/services/transcription_service.py`) and proofs of the specified
properties.

Modelling conventions:
* transcript text is `List Char` (Python `str` at character level);
* Python `float` quantities (dBFS, quality scores, thresholds) are
  modelled as exact rationals `ℚ`; the constants involved are such that
  the comparisons performed by the code agree with exact arithmetic;
* the external Whisper capability call is modelled by its observable
  outcome per attempt (`CallOutcome`): an exception with a message, a
  `None` result, or a `(text, language)` pair;
* wall-clock fields (`processing_time_seconds`) and filesystem paths are
  not modelled.
-/

-- Batteries marks the `Rat` field operations irreducible; re-enable
-- unfolding so that concrete rational values evaluate by `decide`.
attribute [local semireducible] Rat.add Rat.sub Rat.mul Rat.inv Rat.ofScientific

namespace TakeMyDictation

/-- Python `str.split()` helper: accumulate the current word (reversed)
while scanning; whitespace ends a word, empty words are dropped. -/
def splitWsAux : List Char → List Char → List (List Char)
  | [], acc => if acc.isEmpty then [] else [acc.reverse]
  | c :: rest, acc =>
    if c.isWhitespace then
      if acc.isEmpty then splitWsAux rest [] else acc.reverse :: splitWsAux rest []
    else splitWsAux rest (c :: acc)

/-- Python `text.split()`: split on runs of whitespace, dropping empties. -/
def splitWs (text : List Char) : List (List Char) := splitWsAux text []

/-- Python `' '.join(words)`. -/
def joinWords (ws : List (List Char)) : List Char := (List.intersperse [' '] ws).flatten

/-- Fuel-driven scan for `pyCount`: counts non-overlapping occurrences of
`pat` in the haystack, scanning left to right and skipping the match
length on a hit, exactly as Python `str.count` does. -/
def countFuel (pat : List Char) : ℕ → List Char → ℕ
  | 0, _ => 0
  | _, [] => 0
  | fuel + 1, c :: rest =>
    if pat.isPrefixOf (c :: rest) then
      1 + countFuel pat fuel (rest.drop (pat.length - 1))
    else
      countFuel pat fuel rest

/-- Python `hay.count(pat)`: non-overlapping occurrence count
(`hay.count('') = len(hay) + 1` as in CPython). -/
def pyCount (hay pat : List Char) : ℕ :=
  if pat.isEmpty then hay.length + 1 else countFuel pat hay.length hay

/-- Python `range(0, stop, 5)` as a list. -/
def range5 (stop : ℕ) : List ℕ := (List.range ((stop + 4) / 5)).map (· * 5)

/-- Python `pat in hay` substring containment. -/
def pyContains (hay pat : List Char) : Bool := hay.tails.any fun t => pat.isPrefixOf t

/-- Python `max(0.0, min(1.0, q))`, written with comparisons so that it
evaluates by kernel reduction. -/
def clamp01 (q : ℚ) : ℚ := if q ≤ 0 then 0 else if 1 ≤ q then 1 else q

/-!
## RepetitionDetector (`production_whisper_service.py`, lines 187-281)
-/

/-- Strategy 1 of `RepetitionDetector.detect`: scan n-grams for
n in `[4, 3, 5]` and offsets `i in range(len(words) - n*3)`; report the
phrase (clipped to 50 chars) whose occurrence count in the remainder of
the text is at least 2 (original + 2 more = 3 total). -/
def detectStrategy1 (words : List (List Char)) : Option (List Char) :=
  [4, 3, 5].findSome? fun n =>
    (List.range (words.length - n * 3)).findSome? fun i =>
      let phrase := joinWords ((words.drop i).take n)
      let remaining := joinWords (words.drop (i + n))
      if 2 ≤ pyCount remaining phrase then some (phrase.take 50) else none

/-- Strategy 2 of `RepetitionDetector.detect`: in the last quarter of the
text (`text[int(len(text)*0.75):]`, exact since 0.75 is a binary float),
when it is longer than 40 chars, look for a 15-char chunk at offsets
`range(0, min(len(lq)-30, 100), 5)` occurring at least 3 times. -/
def detectStrategy2 (text : List Char) : Option (List Char) :=
  let lastQuarter := text.drop (text.length * 3 / 4)
  if lastQuarter.length ≤ 40 then none
  else
    (range5 (min (lastQuarter.length - 30) 100)).findSome? fun i =>
      let chunk := (lastQuarter.drop i).take 15
      if 3 ≤ pyCount lastQuarter chunk then some chunk else none

/-- Strategy 3 of `RepetitionDetector.detect`: for texts longer than 100
chars, check whether a prefix of the last 50 chars (lengths 30, 40, 50)
occurs inside the preceding 100 chars (`text[-150:-50]`). -/
def detectStrategy3 (text : List Char) : Option (List Char) :=
  if text.length ≤ 100 then none
  else
    let last50 := text.drop (text.length - 50)
    let prev100 := (text.drop (text.length - 150)).take (text.length - 50 - (text.length - 150))
    [30, 40, 50].findSome? fun len =>
      if len ≤ last50.length then
        let chunk := last50.take len
        if pyContains prev100 chunk then some (chunk.take 30) else none
      else none

/-- `RepetitionDetector.detect`: returns `(has_repetition, repeated_phrase)`.
Texts under 50 chars or under 12 words are exempt; otherwise the three
strategies run in order with early exit on the first match. -/
def detect (text : List Char) : Bool × Option (List Char) :=
  if text.length < 50 then (false, none)
  else
    let words := splitWs text
    if words.length < 12 then (false, none)
    else
      match detectStrategy1 words with
      | some p => (true, some p)
      | none =>
        match detectStrategy2 text with
        | some p => (true, some p)
        | none =>
          match detectStrategy3 text with
          | some p => (true, some p)
          | none => (false, none)

/-- `RepetitionDetector.calculate_quality_score`: start at 1.0, subtract
0.5 on repetition, 0.3 / 0.1 for low unique-word ratio (over texts with
more than 10 words), 0.2 when characters above U+FFFF exceed 10% of the
length; clamp to [0, 1]. Exact rational arithmetic stands in for the
Python floats. -/
def calculateQualityScore (text : List Char) : ℚ :=
  if text.isEmpty then 0
  else
    let score1 : ℚ := if (detect text).1 then 1 - 1/2 else 1
    let words := splitWs text
    let score2 : ℚ :=
      if 10 < words.length then
        let uniqueRatio : ℚ := (words.dedup.length : ℚ) / (words.length : ℚ)
        if uniqueRatio < 3/10 then score1 - 3/10
        else if uniqueRatio < 1/2 then score1 - 1/10
        else score1
      else score1
    let unusualChars := (text.filter fun c => 0xFFFF < c.toNat).length
    let score3 : ℚ :=
      if (text.length : ℚ) * (1/10) < (unusualChars : ℚ) then score2 - 1/5 else score2
    clamp01 score3

/-!
## ProductionWhisperService.transcribe (`production_whisper_service.py`, lines 284-483)

The retry loop (Step 2 of `transcribe`) is modelled as a recursion over
the list of temperatures paired with the observable outcome of each
Whisper call.  The `.err` constructor covers any exception raised by the
call (the Python code catches bare `Exception`); `.noResult` covers a
`None` return; `.ok` a successful `(text, language)` pair.  The
wall-clock fields of the Python result and the preprocessing of Step 1
(modelled separately as `prepareAudio`) do not influence the loop.
-/

/-- Observable outcome of one `_call_whisper` attempt. -/
inductive CallOutcome where
  | err (msg : String)
  | noResult
  | ok (text : List Char) (lang : String)
deriving DecidableEq

/-- The dict built at `best_result = {...}` in the Python loop. -/
structure Candidate where
  text : List Char
  lang : String
  temperature : ℚ
  qualityScore : ℚ
  hasRepetition : Bool
deriving DecidableEq

/-- Warnings appended by the driver, modelled structurally rather than as
formatted strings. -/
inductive DriverWarning where
  | apiError (temperature : ℚ) (msg : String)
  | repetitionRetry (temperature : ℚ)
  | qualityFair
  | qualityPoor
  | bestHasRepetition
deriving DecidableEq

/-- Mutable state of the Python retry loop (`best_result`, `best_score`,
`attempts`, `warnings`).  `processed` is ghost instrumentation absent
from the Python: the candidates the loop actually evaluated, recorded so
that properties about "candidates produced" can be stated. -/
structure LoopState where
  best : Option Candidate
  bestScore : ℚ
  attempts : ℕ
  warnings : List DriverWarning
  processed : List Candidate
deriving DecidableEq

/-- `TranscriptionQuality` enum. -/
inductive TranscriptionQuality where
  | excellent
  | good
  | fair
  | poor
  | failed
deriving DecidableEq

/-- `TranscriptionResult` dataclass (wall-clock and duration fields
omitted; they are not modelled). -/
structure TranscriptionResult where
  transcript : Option (List Char)
  language : Option String
  quality : TranscriptionQuality
  confidenceScore : ℚ
  attempts : ℕ
  warnings : List DriverWarning
  error : Option String
deriving DecidableEq

/-- `TEMPERATURE_SEQUENCE = [0.2, 0.0, 0.4, 0.3, 0.6]`. -/
def TEMPERATURE_SEQUENCE : List ℚ := [0.2, 0.0, 0.4, 0.3, 0.6]

/-- The `for temp in temperatures_to_try` loop of `transcribe`: on an
exception, append a warning and continue; on a `None` result, continue;
on success run the detector, keep the candidate iff its score strictly
improves on `best_score`, break when `score ≥ 0.8` with no repetition,
and append a warning before continuing when repetition was detected. -/
def driverLoop : List (ℚ × CallOutcome) → LoopState → LoopState
  | [], st => st
  | (temp, out) :: rest, st =>
    let st := { st with attempts := st.attempts + 1 }
    match out with
    | .err msg =>
      driverLoop rest { st with warnings := st.warnings ++ [.apiError temp msg] }
    | .noResult => driverLoop rest st
    | .ok text lang =>
      let hasRep := (detect text).1
      let qs := calculateQualityScore text
      let cand : Candidate := ⟨text, lang, temp, qs, hasRep⟩
      let st := { st with processed := st.processed ++ [cand]
                          best := if st.bestScore < qs then some cand else st.best
                          bestScore := if st.bestScore < qs then qs else st.bestScore }
      if 0.8 ≤ qs ∧ hasRep = false then st
      else if hasRep then
        driverLoop rest { st with warnings := st.warnings ++ [.repetitionRetry temp] }
      else driverLoop rest st

/-- Step 3 of `transcribe`: map the loop state to the final
`TranscriptionResult` (failure when no candidate was retained, otherwise
the quality-level mapping on the best score). -/
def finishResult (st : LoopState) : TranscriptionResult :=
  match st.best with
  | none =>
    { transcript := none
      language := none
      quality := .failed
      confidenceScore := 0
      attempts := st.attempts
      warnings := st.warnings
      error := some "All transcription attempts failed" }
  | some b =>
    let quality : TranscriptionQuality :=
      if 0.9 ≤ st.bestScore ∧ b.hasRepetition = false then .excellent
      else if 0.7 ≤ st.bestScore ∧ b.hasRepetition = false then .good
      else if 0.5 ≤ st.bestScore then .fair
      else .poor
    let warns1 :=
      if quality = .fair then st.warnings ++ [.qualityFair]
      else if quality = .poor then st.warnings ++ [.qualityPoor]
      else st.warnings
    let warns2 := if b.hasRepetition then warns1 ++ [.bestHasRepetition] else warns1
    { transcript := some b.text
      language := some b.lang
      quality := quality
      confidenceScore := st.bestScore
      attempts := st.attempts
      warnings := warns2
      error := none }

/-- Initial loop state (`best_result = None; best_score = 0.0;
attempts = 0`). -/
def initState : LoopState := ⟨none, 0, 0, [], []⟩

/-- `transcribe` restricted to its retry loop and result assembly:
`temperatures_to_try = TEMPERATURE_SEQUENCE[:max_retries]`, one outcome
per attempted temperature. -/
def transcribeRun (maxRetries : ℕ) (outs : List CallOutcome) : TranscriptionResult :=
  finishResult (driverLoop ((TEMPERATURE_SEQUENCE.take maxRetries).zip outs) initState)

/-- Ghost observer: the candidates the loop evaluated during
`transcribeRun`. -/
def transcribeTrace (maxRetries : ℕ) (outs : List CallOutcome) : List Candidate :=
  (driverLoop ((TEMPERATURE_SEQUENCE.take maxRetries).zip outs) initState).processed

/-!
## AudioPreprocessor.prepare_audio (`production_whisper_service.py`, lines 62-184)

The file is abstracted by its measured characteristics (size, lowercased
extension, loudness, channels, duration); path handling, the
`FileNotFoundError` check and the `except` fallback (which returns the
original file when pydub fails) are filesystem/library concerns outside
the model.
-/

/-- Characteristics of the input audio file as `prepare_audio` observes
them. -/
structure AudioInput where
  sizeBytes : ℕ
  ext : String
  dbfs : ℚ
  channels : ℕ
  durationMs : ℕ
deriving DecidableEq

/-- `WHISPER_NATIVE_FORMATS`. -/
def WHISPER_NATIVE_FORMATS : List String := ["mp3", "mp4", "m4a", "wav", "webm", "mpeg", "mpga"]

/-- Outcome of `prepare_audio`: `was_processed`, the accumulated
`processing_steps`, whether the original file was returned, and the
export bitrate in kbps (`none` when no export happens). -/
structure PrepOutcome where
  wasProcessed : Bool
  steps : List String
  usedOriginalFile : Bool
  bitrateKbps : Option ℕ
deriving DecidableEq

/-- `AudioPreprocessor.prepare_audio`.  The processing decision
(`needs_processing`) looks at file size and container format only; the
loudness check appears further down, inside the processing branch. -/
def prepareAudio (f : AudioInput) : PrepOutcome :=
  let fileSizeMB : ℚ := (f.sizeBytes : ℚ) / (1024 * 1024)
  -- Reason 1: file too large; Reason 2: unsupported format
  let steps1 : List String := if 25 < fileSizeMB then ["compress_size"] else []
  let steps2 : List String :=
    steps1 ++ (if f.ext ∈ WHISPER_NATIVE_FORMATS then [] else ["convert_format"])
  let needsProcessing : Prop := 25 < fileSizeMB ∨ f.ext ∉ WHISPER_NATIVE_FORMATS
  if ¬needsProcessing then
    -- "If no processing needed, return original"
    { wasProcessed := false, steps := steps2, usedOriginalFile := true, bitrateKbps := none }
  else
    -- "Only normalize if EXTREMELY quiet (< -30 dBFS)"
    let steps3 := steps2 ++ (if f.dbfs < -30 then ["normalize_volume"] else [])
    -- "Convert to mono if stereo"
    let steps4 := steps3 ++ (if 1 < f.channels then ["convert_to_mono"] else [])
    let durationSeconds : ℚ := (f.durationMs : ℚ) / 1000
    -- target bitrate: int(20MB·8bits / duration / 1000), clamped to [64, 128]
    let bitrate : ℕ :=
      if 25 < fileSizeMB then
        let tb : ℤ := ((20 * 1024 * 1024 * 8 : ℚ) / durationSeconds / 1000).floor
        (if tb < 64 then 64 else if 128 < tb then 128 else tb).toNat
      else 128
    { wasProcessed := true, steps := steps4, usedOriginalFile := false, bitrateKbps := some bitrate }

/-!
## TranscriptionService (`transcription_service.py`)

`transcribe_audio` / `transcribe_audio_production` over an in-memory
store: the `transcriptions` table is an association list keyed by
`recording_id` (the column carries a UNIQUE constraint).  The returned
triple is (outcome, new store, number of Whisper capability calls made).
The duplicate-key `except` branches of the Python are races of
concurrent writers and are unreachable in this sequential model.
-/

/-- Persisted `Transcription` row (timestamps and surrogate id omitted). -/
structure TranscriptionRecord where
  recordingId : String
  text : List Char
  language : Option String
  confidence : ℚ
  provider : String
deriving DecidableEq

/-- The `transcriptions` table. -/
abbrev TranscriptionStore := List (String × TranscriptionRecord)

/-- Pipeline-level errors (`raise ValueError(...)` / `raise Exception(...)`
in the Python, distinguished structurally). -/
inductive PipelineError where
  /-- `ValueError("Audio too short (< 1 second)")` -/
  | audioTooShort
  /-- `ValueError("Audio too long (> 2 hours). ...")` -/
  | audioTooLong
  /-- `Exception("Failed to transcribe audio: ...")` -/
  | transcriptionFailed (detail : Option String)
deriving DecidableEq

instance : DecidableEq (Except PipelineError TranscriptionRecord) := fun a b =>
  match a, b with
  | .ok x, .ok y =>
    if h : x = y then .isTrue (by rw [h]) else .isFalse (by simp [h])
  | .error x, .error y =>
    if h : x = y then .isTrue (by rw [h]) else .isFalse (by simp [h])
  | .ok _, .error _ => .isFalse (by simp)
  | .error _, .ok _ => .isFalse (by simp)

/-- `TranscriptionService.transcribe_audio_production`: return the
existing record if one exists; otherwise run the production driver,
raise unless `result.success`, and persist the new record. -/
def transcribeAudioProduction (db : TranscriptionStore) (rid : String)
    (outs : List CallOutcome) :
    Except PipelineError TranscriptionRecord × TranscriptionStore × ℕ :=
  match db.lookup rid with
  | some existing => (.ok existing, db, 0)
  | none =>
    let r := transcribeRun 5 outs
    -- `result.success` is `transcript is not None and quality != FAILED`
    match r.transcript with
    | some text =>
      if r.quality ≠ .failed then
        let record : TranscriptionRecord :=
          { recordingId := rid, text := text, language := r.language,
            confidence := r.confidenceScore, provider := "whisper-production" }
        (.ok record, db ++ [(rid, record)], r.attempts)
      else (.error (.transcriptionFailed r.error), db, r.attempts)
    | none => (.error (.transcriptionFailed r.error), db, r.attempts)

/-- What the legacy `WhisperTranscriber` would produce, abstracted: its
result fields and the number of capability calls it would make. -/
structure LegacyTranscriberOutput where
  text : List Char
  language : String
  confidence : ℚ
  calls : ℕ
deriving DecidableEq

/-- The legacy (non-production) branch of `transcribe_audio`: validate
duration, preprocess (enhancement failures fall back internally and make
no capability call), transcribe, persist. -/
def transcribeAudioLegacy (db : TranscriptionStore) (rid : String)
    (durationSeconds : ℚ) (legacyOut : LegacyTranscriberOutput) :
    Except PipelineError TranscriptionRecord × TranscriptionStore × ℕ :=
  if durationSeconds < 1 then (.error .audioTooShort, db, 0)
  else if 7200 < durationSeconds then (.error .audioTooLong, db, 0)
  else
    let record : TranscriptionRecord :=
      { recordingId := rid, text := legacyOut.text, language := some legacyOut.language,
        confidence := legacyOut.confidence, provider := "whisper" }
    (.ok record, db ++ [(rid, record)], legacyOut.calls)

/-- `TranscriptionService.transcribe_audio`, the pipeline entry point
(`run_pipeline` in the specification): check for an existing record,
then delegate to the production or legacy branch according to
`use_production_service`. -/
def transcribeAudio (db : TranscriptionStore) (rid : String) (useProduction : Bool)
    (durationSeconds : ℚ) (outs : List CallOutcome) (legacyOut : LegacyTranscriberOutput) :
    Except PipelineError TranscriptionRecord × TranscriptionStore × ℕ :=
  match db.lookup rid with
  | some existing => (.ok existing, db, 0)
  | none =>
    if useProduction then transcribeAudioProduction db rid outs
    else transcribeAudioLegacy db rid durationSeconds legacyOut

/-!
## Concrete texts used by witnesses and counterexamples
-/

/-- A 4-word phrase repeated 5 times (20 words, 74 chars). -/
def phrase4x5 : List Char :=
  "the cat sat on the cat sat on the cat sat on the cat sat on the cat sat on".toList

/-- 13 words (64 chars): a 3-word phrase occurs 3 times starting at word
offset 4, which lies outside the offsets `range(len(words) - 3*3)` never
reaches for any scanned phrase that repeats. -/
def sparseRepText : List Char :=
  "aadd bbee ccff ddgg pqrs tuvw xyzk pqrs tuvw xyzk pqrs tuvw xyzk".toList

/-- 12 words but only 23 characters. -/
def shortRepText : List Char := "a b a b a b a b a b a b".toList

/-- A clean short transcript: no repetition, quality score 1. -/
def goodText : List Char := "hello world this is fine".toList

/-- A 2 MB native-format file at −40 dBFS, 60 s long, mono. -/
def quietNativeSmall : AudioInput :=
  { sizeBytes := 2 * 1024 * 1024, ext := "mp3", dbfs := -40, channels := 1, durationMs := 60000 }

/-- A persisted record used by concrete witnesses. -/
def sampleRecord : TranscriptionRecord :=
  { recordingId := "rec1", text := goodText, language := some "en",
    confidence := 1, provider := "whisper-production" }

/-- A legacy transcriber outcome used by concrete witnesses. -/
def sampleLegacy : LegacyTranscriberOutput :=
  { text := goodText, language := "en", confidence := 9/10, calls := 1 }

/-!
## Theorems
-/

/-- C9: every text shorter than 50 characters is exempt: `detect`
returns `(false, none)` regardless of content, before any word count or
n-gram scan. -/
theorem detect_short_text_exempt (text : List Char) (h : text.length < 50) :
    detect text = (false, none) := by
  simp [detect, h]

/-- Witness for C9: a 12-word text under 50 characters made of one
repeated word pair is still exempt. -/
theorem detect_short_text_exempt_witness :
    shortRepText.length < 50 ∧ 12 ≤ (splitWs shortRepText).length ∧
      detect shortRepText = (false, none) :=
  ⟨by decide, by decide, detect_short_text_exempt shortRepText (by decide)⟩

/-- C7 counterexample: `sparseRepText` has 13 (≥ 12) words and its
3-gram at word offset 4 occurs 3 times in total (once there, twice in
the remainder of the text), yet `detect` reports no repetition: the
strategy-1 scan stops at offset `len(words) - n*3 - 1` and never
examines that phrase, and the character-level strategies do not fire. -/
theorem detect_ngram_claim_counterexample :
    12 ≤ (splitWs sparseRepText).length ∧
      2 ≤ pyCount (joinWords ((splitWs sparseRepText).drop 7))
          (joinWords (((splitWs sparseRepText).drop 4).take 3)) ∧
      detect sparseRepText = (false, none) := by
  refine ⟨by decide, by decide, by decide⟩

/-- C7 (amended): for a text of at least 50 characters and at least 12
words, if some n-gram of length n ∈ {3,4,5} starting at a word offset i
with `i + n*3 < len(words)` occurs at least 3 times in total (at i plus
at least twice in the remainder), then `detect` reports repetition. -/
theorem detect_ngram_repetition (text : List Char)
    (h50 : 50 ≤ text.length) (h12 : 12 ≤ (splitWs text).length)
    (n i : ℕ) (hn : n ∈ ([3, 4, 5] : List ℕ))
    (hi : i + n * 3 < (splitWs text).length)
    (hcount : 2 ≤ pyCount (joinWords ((splitWs text).drop (i + n)))
        (joinWords (((splitWs text).drop i).take n))) :
    (detect text).1 = true := by
  have hs : detectStrategy1 (splitWs text) ≠ none := by
    intro hnone
    rw [detectStrategy1, List.findSome?_eq_none_iff] at hnone
    have hmem : n ∈ ([4, 3, 5] : List ℕ) := by
      simp only [List.mem_cons, List.mem_singleton] at hn ⊢
      tauto
    have hinner := hnone n hmem
    rw [List.findSome?_eq_none_iff] at hinner
    have := hinner i (List.mem_range.mpr (by omega))
    rw [if_pos hcount] at this
    exact Option.some_ne_none _ this
  obtain ⟨p, hp⟩ := Option.ne_none_iff_exists'.mp hs
  have h50' : ¬ text.length < 50 := by omega
  have h12' : ¬ (splitWs text).length < 12 := by omega
  simp [detect, h50', h12', hp]

/-- Witness for C7 (amended): a 4-word phrase repeated 5 times
consecutively is flagged. -/
theorem detect_ngram_repetition_witness :
    50 ≤ phrase4x5.length ∧ 12 ≤ (splitWs phrase4x5).length ∧
      (0 : ℕ) + 4 * 3 < (splitWs phrase4x5).length ∧
      2 ≤ pyCount (joinWords ((splitWs phrase4x5).drop (0 + 4)))
          (joinWords (((splitWs phrase4x5).drop 0).take 4)) ∧
      (detect phrase4x5).1 = true :=
  ⟨by decide, by decide, by decide, by decide,
    detect_ngram_repetition phrase4x5 (by decide) (by decide) 4 0 (by decide)
      (by decide) (by decide)⟩

/-- C1 counterexample: this file's loudness is below −30 dBFS, yet
`prepare_audio` returns it unchanged (`was_processed = false`, no
normalization step) because the processing decision only looks at size
and format. -/
theorem prepare_audio_quiet_counterexample :
    quietNativeSmall.dbfs < -30 ∧
      prepareAudio quietNativeSmall =
        { wasProcessed := false, steps := [], usedOriginalFile := true, bitrateKbps := none } :=
  ⟨by decide, by decide⟩

/-- C1 (amended): the processing decision of `prepare_audio`, taken once
before the retry loop, is true iff the file exceeds the 25 MB limit or
its format is outside the native set; loudness below −30 dBFS does not
enter the decision, but whenever the decision is true and the audio is
below −30 dBFS a `normalize_volume` step is applied; when the decision
is false the original file is returned unchanged with no steps. -/
theorem prepare_audio_decision (f : AudioInput) :
    ((prepareAudio f).wasProcessed = true ↔
      (25 < (f.sizeBytes : ℚ) / (1024 * 1024) ∨ f.ext ∉ WHISPER_NATIVE_FORMATS)) ∧
    ((prepareAudio f).wasProcessed = false →
      (prepareAudio f).usedOriginalFile = true ∧ (prepareAudio f).steps = []) ∧
    ((25 < (f.sizeBytes : ℚ) / (1024 * 1024) ∨ f.ext ∉ WHISPER_NATIVE_FORMATS) →
      f.dbfs < -30 → "normalize_volume" ∈ (prepareAudio f).steps) := by
  by_cases h : 25 < (f.sizeBytes : ℚ) / (1024 * 1024) ∨ f.ext ∉ WHISPER_NATIVE_FORMATS
  · refine ⟨?_, ?_, ?_⟩
    · simp only [prepareAudio]
      rw [if_neg (not_not_intro h)]
      simpa using h
    · simp only [prepareAudio]
      rw [if_neg (not_not_intro h)]
      intro hw
      exact absurd hw (by simp)
    · intro _ hq
      simp only [prepareAudio]
      rw [if_neg (not_not_intro h)]
      simp [hq]
  · refine ⟨?_, ?_, ?_⟩
    · simp only [prepareAudio]
      rw [if_pos h]
      simpa using h
    · simp only [prepareAudio]
      rw [if_pos h]
      intro _
      push_neg at h
      simp [h.1, h.2]
    · intro hcond
      exact absurd hcond h

/-- Witness for C1 (amended) at a 30 MB mp3 at −40 dBFS: the size
condition triggers processing and the quiet audio is normalized. -/
theorem prepare_audio_decision_witness :
    (prepareAudio ⟨30 * 1024 * 1024, "mp3", -40, 1, 60000⟩).wasProcessed = true ∧
      "normalize_volume" ∈ (prepareAudio ⟨30 * 1024 * 1024, "mp3", -40, 1, 60000⟩).steps :=
  ⟨(prepare_audio_decision _).1.mpr (Or.inl (by decide)),
    (prepare_audio_decision _).2.2 (Or.inl (by decide)) (by decide)⟩

/-- `finishResult` produces `transcript = none` exactly when it produces
`quality = failed`. -/
lemma finishResult_transcript_none_iff (st : LoopState) :
    (finishResult st).transcript = none ↔ (finishResult st).quality = .failed := by
  cases hb : st.best with
  | none => simp [finishResult, hb]
  | some b =>
    simp only [finishResult, hb]
    constructor
    · intro h
      exact absurd h (by simp)
    · intro h
      exfalso
      revert h
      split_ifs <;> simp

/-- C5: in every result of the driver, the transcript is absent iff the
quality is `failed`. -/
theorem transcript_none_iff_failed (maxRetries : ℕ) (outs : List CallOutcome) :
    (transcribeRun maxRetries outs).transcript = none ↔
      (transcribeRun maxRetries outs).quality = .failed :=
  finishResult_transcript_none_iff _

/-- C2 (amended): every capability-call failure during an attempt —
whatever its message, authentication and configuration errors included —
is absorbed: each one appends exactly one warning, increments the
attempt counter, and the loop advances to the remaining attempts; no
error aborts the pipeline. -/
theorem driver_absorbs_all_call_errors (errs : List (ℚ × String))
    (rest : List (ℚ × CallOutcome)) (st : LoopState) :
    driverLoop (errs.map (fun e => (e.1, CallOutcome.err e.2)) ++ rest) st =
      driverLoop rest
        { st with attempts := st.attempts + errs.length,
                  warnings := st.warnings ++
                    errs.map (fun e => DriverWarning.apiError e.1 e.2) } := by
  induction errs generalizing st with
  | nil => simp
  | cons e es ih =>
    simp only [List.map_cons, List.cons_append, driverLoop]
    rw [List.append_eq, ih]
    congr 1
    simp only [LoopState.mk.injEq, List.append_assoc, List.cons_append, List.nil_append,
      List.length_cons]
    exact ⟨trivial, trivial, by omega, trivial, trivial⟩

/-- C2 counterexample: an authentication failure at attempt 1 does not
abort the pipeline — a second capability call is issued and its
transcript is returned. -/
theorem fatal_error_no_abort_counterexample :
    (transcribeRun 5 [.err "AuthenticationError: Incorrect API key",
      .ok goodText "en"]).attempts = 2 ∧
      (transcribeRun 5 [.err "AuthenticationError: Incorrect API key",
        .ok goodText "en"]).transcript = some goodText :=
  ⟨by decide, by decide⟩

/-- When the first attempt succeeds with score ≥ 0.8 and no repetition,
the loop breaks at once: exactly one attempt is consumed. -/
lemma driverLoop_break_first (temp : ℚ) (t : List Char) (l : String)
    (rest : List (ℚ × CallOutcome)) (st : LoopState)
    (hq : 0.8 ≤ calculateQualityScore t) (hr : (detect t).1 = false) :
    (driverLoop ((temp, .ok t l) :: rest) st).attempts = st.attempts + 1 := by
  simp only [driverLoop]
  rw [if_pos ⟨hq, hr⟩]

/-- If the k-th pending attempt would succeed with score ≥ 0.8 and no
repetition, the loop performs at most k+1 further attempts. -/
lemma driverLoop_attempts_le (pairs : List (ℚ × CallOutcome)) (st : LoopState) (k : ℕ)
    (temp : ℚ) (t : List Char) (l : String)
    (hk : pairs.get? k = some (temp, .ok t l))
    (hq : 0.8 ≤ calculateQualityScore t) (hr : (detect t).1 = false) :
    (driverLoop pairs st).attempts ≤ st.attempts + k + 1 := by
  induction pairs generalizing st k with
  | nil => simp at hk
  | cons p rest ih =>
    cases k with
    | zero =>
      simp only [List.get?_cons_zero, Option.some.injEq] at hk
      subst hk
      rw [driverLoop_break_first temp t l rest st hq hr]
    | succ k =>
      simp only [List.get?_cons_succ] at hk
      obtain ⟨tp, out⟩ := p
      cases out with
      | err msg =>
        simp only [driverLoop]
        calc (driverLoop rest _).attempts ≤ st.attempts + 1 + k + 1 := ih _ k hk
          _ = st.attempts + (k + 1) + 1 := by omega
      | noResult =>
        simp only [driverLoop]
        calc (driverLoop rest _).attempts ≤ st.attempts + 1 + k + 1 := ih _ k hk
          _ = st.attempts + (k + 1) + 1 := by omega
      | ok t' l' =>
        simp only [driverLoop]
        split
        · simp only [LoopState.attempts]
          omega
        · split
          · calc (driverLoop rest _).attempts ≤ st.attempts + 1 + k + 1 := ih _ k hk
              _ = st.attempts + (k + 1) + 1 := by omega
          · calc (driverLoop rest _).attempts ≤ st.attempts + 1 + k + 1 := ih _ k hk
              _ = st.attempts + (k + 1) + 1 := by omega

/-- `finishResult` reports the loop's attempt counter unchanged. -/
lemma finishResult_attempts (st : LoopState) : (finishResult st).attempts = st.attempts := by
  cases hb : st.best <;> simp [finishResult, hb]

/-- `finishResult` reports the loop's best score as the confidence
(0 when no candidate was retained). -/
lemma finishResult_confidence (st : LoopState) :
    (finishResult st).confidenceScore = if st.best = none then 0 else st.bestScore := by
  cases hb : st.best <;> simp [finishResult, hb]

/-- C4: if the attempt at position k would yield a candidate with
`quality_score ≥ 0.8` and `has_repetition = false`, the driver stops
within k+1 capability calls; in particular, when attempt 1 is such a
candidate, exactly one capability call is made. -/
theorem driver_early_accept :
    (∀ (maxRetries : ℕ) (outs : List CallOutcome) (k : ℕ) (temp : ℚ)
        (t : List Char) (l : String),
      ((TEMPERATURE_SEQUENCE.take maxRetries).zip outs).get? k = some (temp, .ok t l) →
      0.8 ≤ calculateQualityScore t → (detect t).1 = false →
      (transcribeRun maxRetries outs).attempts ≤ k + 1) ∧
    (∀ (t : List Char) (l : String) (outs : List CallOutcome) (maxRetries : ℕ),
      1 ≤ maxRetries →
      0.8 ≤ calculateQualityScore t → (detect t).1 = false →
      (transcribeRun maxRetries (.ok t l :: outs)).attempts = 1) := by
  constructor
  · intro maxRetries outs k temp t l hk hq hr
    have h := driverLoop_attempts_le _ initState k temp t l hk hq hr
    rw [transcribeRun, finishResult_attempts]
    simpa [initState] using h
  · intro t l outs maxRetries hm hq hr
    obtain ⟨m, rfl⟩ : ∃ m, maxRetries = m + 1 := ⟨maxRetries - 1, by omega⟩
    rw [transcribeRun, finishResult_attempts]
    have htake : TEMPERATURE_SEQUENCE.take (m + 1) =
        0.2 :: ([0.0, 0.4, 0.3, 0.6] : List ℚ).take m := rfl
    rw [htake, List.zip_cons_cons,
      driverLoop_break_first 0.2 t l ((([0.0, 0.4, 0.3, 0.6] : List ℚ).take m).zip outs)
        initState hq hr]
    rfl

/-- Witness for C4: a clean transcript at attempt 1 yields exactly one
capability call. -/
theorem driver_early_accept_witness :
    0.8 ≤ calculateQualityScore goodText ∧ (detect goodText).1 = false ∧
      (transcribeRun 5 [.ok goodText "en"]).attempts = 1 :=
  ⟨by decide, by decide,
    driver_early_accept.2 goodText "en" [] 5 (by decide) (by decide) (by decide)⟩

/-- If no candidate has been retained, a run of attempts whose texts all
score 0 retains none either: `0 > best_score` never holds, so `best`
stays `None` while the attempt counter advances through the whole list. -/
lemma driverLoop_all_zero (pairs : List (ℚ × CallOutcome)) (st : LoopState)
    (hb : st.best = none) (hs : st.bestScore = 0)
    (h : ∀ p ∈ pairs, ∃ t l, p.2 = CallOutcome.ok t l ∧ calculateQualityScore t = 0) :
    (driverLoop pairs st).best = none ∧ (driverLoop pairs st).bestScore = 0 ∧
      (driverLoop pairs st).attempts = st.attempts + pairs.length := by
  induction pairs generalizing st with
  | nil => simpa [driverLoop] using ⟨hb, hs⟩
  | cons p rest ih =>
    obtain ⟨t, l, hpt, hqt⟩ := h p (List.mem_cons_self _ _)
    obtain ⟨tp, out⟩ := p
    simp only at hpt
    subst hpt
    simp only [driverLoop, hqt]
    rw [if_neg (show ¬ st.bestScore < 0 from by rw [hs]; exact lt_irrefl 0)]
    rw [if_neg (show ¬ st.bestScore < 0 from by rw [hs]; exact lt_irrefl 0)]
    rw [if_neg (show ¬ ((0.8 : ℚ) ≤ 0 ∧ (detect t).1 = false) from fun hc => by
      have := hc.1; norm_num at this)]
    split
    · have hr := ih { st with
          attempts := st.attempts + 1
          warnings := st.warnings ++ [DriverWarning.repetitionRetry tp]
          processed := st.processed ++ [⟨t, l, tp, 0, (detect t).1⟩] }
        hb hs (fun q hq => h q (List.mem_cons_of_mem _ hq))
      refine ⟨hr.1, hr.2.1, ?_⟩
      rw [hr.2.2, List.length_cons]
      show st.attempts + 1 + rest.length = st.attempts + (rest.length + 1)
      omega
    · have hr := ih { st with
          attempts := st.attempts + 1
          processed := st.processed ++ [⟨t, l, tp, 0, (detect t).1⟩] }
        hb hs (fun q hq => h q (List.mem_cons_of_mem _ hq))
      refine ⟨hr.1, hr.2.1, ?_⟩
      rw [hr.2.2, List.length_cons]
      show st.attempts + 1 + rest.length = st.attempts + (rest.length + 1)
      omega

/-- C10: when every capability call succeeds but every returned text has
quality score exactly 0, the driver retains no candidate and returns a
failed result — `transcript = None`, `quality = failed`,
`confidence_score = 0`, error "All transcription attempts failed" —
after exhausting all attempts, although no call errored. -/
theorem driver_all_zero_failure (outs : List CallOutcome) (hlen : outs.length ≤ 5)
    (h : ∀ o ∈ outs, ∃ t l, o = CallOutcome.ok t l ∧ calculateQualityScore t = 0) :
    (transcribeRun 5 outs).transcript = none ∧
      (transcribeRun 5 outs).quality = .failed ∧
      (transcribeRun 5 outs).confidenceScore = 0 ∧
      (transcribeRun 5 outs).error = some "All transcription attempts failed" ∧
      (transcribeRun 5 outs).attempts = outs.length := by
  have hzip : ∀ p ∈ (TEMPERATURE_SEQUENCE.take 5).zip outs,
      ∃ t l, (p : ℚ × CallOutcome).2 = CallOutcome.ok t l ∧ calculateQualityScore t = 0 :=
    fun p hp => h p.2 (List.of_mem_zip hp).2
  obtain ⟨hbest, -, hatt⟩ := driverLoop_all_zero _ initState rfl rfl hzip
  have hlen' : ((TEMPERATURE_SEQUENCE.take 5).zip outs).length = outs.length := by
    rw [List.length_zip]
    simp only [TEMPERATURE_SEQUENCE, List.take, List.length_cons, List.length_nil]
    omega
  rw [transcribeRun]
  simp only [initState] at hbest hatt
  refine ⟨?_, ?_, ?_, ?_, ?_⟩ <;>
    simp [finishResult, initState, hbest, hatt, hlen']

/-- Witness for C10: two successful calls both returning empty text give
a failed result with two attempts and no retained transcript. -/
theorem driver_all_zero_failure_witness :
    (transcribeRun 5 [CallOutcome.ok [] "en", CallOutcome.ok [] "en"]).transcript = none ∧
      (transcribeRun 5 [CallOutcome.ok [] "en", CallOutcome.ok [] "en"]).quality = .failed ∧
      (transcribeRun 5 [CallOutcome.ok [] "en", CallOutcome.ok [] "en"]).confidenceScore = 0 ∧
      (transcribeRun 5 [CallOutcome.ok [] "en", CallOutcome.ok [] "en"]).error =
        some "All transcription attempts failed" ∧
      (transcribeRun 5 [CallOutcome.ok [] "en", CallOutcome.ok [] "en"]).attempts = 2 :=
  driver_all_zero_failure [CallOutcome.ok [] "en", CallOutcome.ok [] "en"] (by decide)
    (fun o ho => by
      rcases List.mem_cons.mp ho with h | h
      · exact ⟨[], "en", h, by decide⟩
      · rw [List.mem_singleton] at h
        exact ⟨[], "en", h, by decide⟩)

/-- Loop invariant for best-candidate tracking: the loop appends some
list Δ of evaluated candidates to the trace; the final best score is the
running maximum of the incoming best score over Δ; and either the best
candidate is unchanged (with its score), or it is one of Δ whose quality
score equals the final best score. -/
lemma driverLoop_best_invariant (pairs : List (ℚ × CallOutcome)) (st : LoopState) :
    ∃ Δ : List Candidate,
      (driverLoop pairs st).processed = st.processed ++ Δ ∧
      (driverLoop pairs st).bestScore =
        Δ.foldl (fun acc c => max acc c.qualityScore) st.bestScore ∧
      (((driverLoop pairs st).best = st.best ∧
          (driverLoop pairs st).bestScore = st.bestScore) ∨
        ∃ c ∈ Δ, (driverLoop pairs st).best = some c ∧
          c.qualityScore = (driverLoop pairs st).bestScore) := by
  induction pairs generalizing st with
  | nil => exact ⟨[], by simp [driverLoop], by simp [driverLoop], Or.inl ⟨rfl, rfl⟩⟩
  | cons p rest ih =>
    obtain ⟨tp, out⟩ := p
    cases out with
    | err msg =>
      simp only [driverLoop]
      exact ih { st with attempts := st.attempts + 1,
                         warnings := st.warnings ++ [.apiError tp msg] }
    | noResult =>
      simp only [driverLoop]
      exact ih { st with attempts := st.attempts + 1 }
    | ok t l =>
      simp only [driverLoop]
      by_cases hlt : st.bestScore < calculateQualityScore t
      · rw [if_pos hlt, if_pos hlt]
        split
        · refine ⟨[⟨t, l, tp, calculateQualityScore t, (detect t).1⟩], rfl, ?_, Or.inr
            ⟨⟨t, l, tp, calculateQualityScore t, (detect t).1⟩, List.mem_singleton_self _,
              rfl, rfl⟩⟩
          simp [max_eq_right hlt.le]
        · split
          · obtain ⟨Δ', h1, h2, h3⟩ := ih { st with
              best := some ⟨t, l, tp, calculateQualityScore t, (detect t).1⟩
              bestScore := calculateQualityScore t
              attempts := st.attempts + 1
              warnings := st.warnings ++ [.repetitionRetry tp]
              processed := st.processed ++ [⟨t, l, tp, calculateQualityScore t, (detect t).1⟩] }
            refine ⟨⟨t, l, tp, calculateQualityScore t, (detect t).1⟩ :: Δ', ?_, ?_, ?_⟩
            · rw [h1]; simp
            · rw [h2]; simp [max_eq_right hlt.le]
            · rcases h3 with ⟨hbest, hsc⟩ | ⟨c, hc, hbest, hsc⟩
              · exact Or.inr ⟨_, List.mem_cons_self _ _, hbest, hsc.symm⟩
              · exact Or.inr ⟨c, List.mem_cons_of_mem _ hc, hbest, hsc⟩
          · obtain ⟨Δ', h1, h2, h3⟩ := ih { st with
              best := some ⟨t, l, tp, calculateQualityScore t, (detect t).1⟩
              bestScore := calculateQualityScore t
              attempts := st.attempts + 1
              processed := st.processed ++ [⟨t, l, tp, calculateQualityScore t, (detect t).1⟩] }
            refine ⟨⟨t, l, tp, calculateQualityScore t, (detect t).1⟩ :: Δ', ?_, ?_, ?_⟩
            · rw [h1]; simp
            · rw [h2]; simp [max_eq_right hlt.le]
            · rcases h3 with ⟨hbest, hsc⟩ | ⟨c, hc, hbest, hsc⟩
              · exact Or.inr ⟨_, List.mem_cons_self _ _, hbest, hsc.symm⟩
              · exact Or.inr ⟨c, List.mem_cons_of_mem _ hc, hbest, hsc⟩
      · rw [if_neg hlt, if_neg hlt]
        split
        · refine ⟨[⟨t, l, tp, calculateQualityScore t, (detect t).1⟩], rfl, ?_,
            Or.inl ⟨rfl, rfl⟩⟩
          simp [max_eq_left (not_lt.mp hlt)]
        · split
          · obtain ⟨Δ', h1, h2, h3⟩ := ih { st with
              attempts := st.attempts + 1
              warnings := st.warnings ++ [.repetitionRetry tp]
              processed := st.processed ++ [⟨t, l, tp, calculateQualityScore t, (detect t).1⟩] }
            refine ⟨⟨t, l, tp, calculateQualityScore t, (detect t).1⟩ :: Δ', ?_, ?_, ?_⟩
            · rw [h1]; simp
            · rw [h2]; simp [max_eq_left (not_lt.mp hlt)]
            · rcases h3 with ⟨hbest, hsc⟩ | ⟨c, hc, hbest, hsc⟩
              · exact Or.inl ⟨hbest, hsc⟩
              · exact Or.inr ⟨c, List.mem_cons_of_mem _ hc, hbest, hsc⟩
          · obtain ⟨Δ', h1, h2, h3⟩ := ih { st with
              attempts := st.attempts + 1
              processed := st.processed ++ [⟨t, l, tp, calculateQualityScore t, (detect t).1⟩] }
            refine ⟨⟨t, l, tp, calculateQualityScore t, (detect t).1⟩ :: Δ', ?_, ?_, ?_⟩
            · rw [h1]; simp
            · rw [h2]; simp [max_eq_left (not_lt.mp hlt)]
            · rcases h3 with ⟨hbest, hsc⟩ | ⟨c, hc, hbest, hsc⟩
              · exact Or.inl ⟨hbest, hsc⟩
              · exact Or.inr ⟨c, List.mem_cons_of_mem _ hc, hbest, hsc⟩

/-- C3: the confidence score of a driver run equals the running maximum
(base 0) of the quality scores of all candidates the loop evaluated, and
any returned transcript belongs to an evaluated candidate whose quality
score equals that maximum — never to a discarded candidate. -/
theorem driver_confidence_is_max (maxRetries : ℕ) (outs : List CallOutcome) :
    (transcribeRun maxRetries outs).confidenceScore =
      (transcribeTrace maxRetries outs).foldl (fun acc c => max acc c.qualityScore) 0 ∧
    ∀ t, (transcribeRun maxRetries outs).transcript = some t →
      ∃ c ∈ transcribeTrace maxRetries outs, c.text = t ∧
        c.qualityScore = (transcribeRun maxRetries outs).confidenceScore := by
  obtain ⟨Δ, h1, h2, h3⟩ :=
    driverLoop_best_invariant ((TEMPERATURE_SEQUENCE.take maxRetries).zip outs) initState
  have h2' : (driverLoop ((TEMPERATURE_SEQUENCE.take maxRetries).zip outs)
      initState).bestScore = Δ.foldl (fun acc c => max acc c.qualityScore) 0 := by
    simpa [initState] using h2
  have htrace : transcribeTrace maxRetries outs = Δ := by
    rw [transcribeTrace, h1]
    rfl
  rw [transcribeRun]
  cases hb : (driverLoop ((TEMPERATURE_SEQUENCE.take maxRetries).zip outs) initState).best with
  | none =>
    have hzero : (driverLoop ((TEMPERATURE_SEQUENCE.take maxRetries).zip outs)
        initState).bestScore = 0 := by
      rcases h3 with ⟨-, hsc⟩ | ⟨c, -, hbest, -⟩
      · simpa [initState] using hsc
      · rw [hb] at hbest
        exact absurd hbest (by simp)
    constructor
    · rw [finishResult_confidence, hb, if_pos rfl, htrace, ← h2', hzero]
    · intro t ht
      exact absurd ht (by simp [finishResult, hb])
  | some b =>
    have hconf : (finishResult (driverLoop ((TEMPERATURE_SEQUENCE.take maxRetries).zip outs)
        initState)).confidenceScore =
        (driverLoop ((TEMPERATURE_SEQUENCE.take maxRetries).zip outs) initState).bestScore := by
      rw [finishResult_confidence, hb]
      simp
    constructor
    · rw [hconf, htrace, ← h2']
    · intro t ht
      have htb : b.text = t := by
        simpa [finishResult, hb] using ht
      rcases h3 with ⟨hbest, -⟩ | ⟨c, hc, hbest, hsc⟩
      · rw [hb] at hbest
        simp [initState] at hbest
      · rw [hb] at hbest
        obtain rfl : b = c := by simpa using hbest
        exact ⟨b, htrace ▸ hc, htb, by rw [hconf]; exact hsc⟩

/-- Witness for C3: a single clean attempt's candidate is the promoted
transcript and carries the maximal (here: its own) score. -/
theorem driver_confidence_is_max_witness :
    ∃ c ∈ transcribeTrace 5 [.ok goodText "en"], c.text = goodText ∧
      c.qualityScore = (transcribeRun 5 [.ok goodText "en"]).confidenceScore :=
  (driver_confidence_is_max 5 [.ok goodText "en"]).2 goodText (by decide)

/-- An association-list lookup misses exactly when the key is absent. -/
lemma lookup_none_iff (rid : String) (db : TranscriptionStore) :
    db.lookup rid = none ↔ rid ∉ db.map Prod.fst := by
  induction db with
  | nil => simp
  | cons p rest ih =>
    obtain ⟨k, v⟩ := p
    by_cases h : rid = k
    · simp [List.lookup, h]
    · have hbeq : (rid == k) = false := beq_eq_false_iff_ne.mpr h
      simp [List.lookup, hbeq, h, ih]

/-- The attempt counter never decreases across the loop. -/
lemma driverLoop_attempts_mono (pairs : List (ℚ × CallOutcome)) (st : LoopState) :
    st.attempts ≤ (driverLoop pairs st).attempts := by
  induction pairs generalizing st with
  | nil => simp [driverLoop]
  | cons p rest ih =>
    obtain ⟨tp, out⟩ := p
    cases out with
    | err msg =>
      simp only [driverLoop]
      exact le_trans (Nat.le_succ _) (ih { st with
        attempts := st.attempts + 1
        warnings := st.warnings ++ [DriverWarning.apiError tp msg] })
    | noResult =>
      simp only [driverLoop]
      exact le_trans (Nat.le_succ _) (ih { st with attempts := st.attempts + 1 })
    | ok t l =>
      simp only [driverLoop]
      split
      · exact Nat.le_succ _
      · split
        · exact le_trans (Nat.le_succ _) (ih { st with
            best := if st.bestScore < calculateQualityScore t then
              some ⟨t, l, tp, calculateQualityScore t, (detect t).1⟩ else st.best
            bestScore := if st.bestScore < calculateQualityScore t then
              calculateQualityScore t else st.bestScore
            attempts := st.attempts + 1
            warnings := st.warnings ++ [DriverWarning.repetitionRetry tp]
            processed := st.processed ++ [⟨t, l, tp, calculateQualityScore t, (detect t).1⟩] })
        · exact le_trans (Nat.le_succ _) (ih { st with
            best := if st.bestScore < calculateQualityScore t then
              some ⟨t, l, tp, calculateQualityScore t, (detect t).1⟩ else st.best
            bestScore := if st.bestScore < calculateQualityScore t then
              calculateQualityScore t else st.bestScore
            attempts := st.attempts + 1
            processed := st.processed ++ [⟨t, l, tp, calculateQualityScore t, (detect t).1⟩] })

/-- A nonempty attempt list consumes at least one attempt. -/
lemma driverLoop_attempts_pos (p : ℚ × CallOutcome) (pairs : List (ℚ × CallOutcome))
    (st : LoopState) :
    st.attempts + 1 ≤ (driverLoop (p :: pairs) st).attempts := by
  obtain ⟨tp, out⟩ := p
  cases out with
  | err msg =>
    simp only [driverLoop]
    exact driverLoop_attempts_mono pairs { st with
      attempts := st.attempts + 1
      warnings := st.warnings ++ [DriverWarning.apiError tp msg] }
  | noResult =>
    simp only [driverLoop]
    exact driverLoop_attempts_mono pairs { st with attempts := st.attempts + 1 }
  | ok t l =>
    simp only [driverLoop]
    split
    · exact Nat.le_refl _
    · split
      · exact driverLoop_attempts_mono pairs { st with
          best := if st.bestScore < calculateQualityScore t then
            some ⟨t, l, tp, calculateQualityScore t, (detect t).1⟩ else st.best
          bestScore := if st.bestScore < calculateQualityScore t then
            calculateQualityScore t else st.bestScore
          attempts := st.attempts + 1
          warnings := st.warnings ++ [DriverWarning.repetitionRetry tp]
          processed := st.processed ++ [⟨t, l, tp, calculateQualityScore t, (detect t).1⟩] }
      · exact driverLoop_attempts_mono pairs { st with
          best := if st.bestScore < calculateQualityScore t then
            some ⟨t, l, tp, calculateQualityScore t, (detect t).1⟩ else st.best
          bestScore := if st.bestScore < calculateQualityScore t then
            calculateQualityScore t else st.bestScore
          attempts := st.attempts + 1
          processed := st.processed ++ [⟨t, l, tp, calculateQualityScore t, (detect t).1⟩] }

/-- After a successful pipeline run, the returned record is retrievable
under its recording id in the resulting store. -/
lemma transcribeAudio_ok_lookup (db : TranscriptionStore) (rid : String) (useP : Bool)
    (dur : ℚ) (outs : List CallOutcome) (lo : LegacyTranscriberOutput)
    (r : TranscriptionRecord) (db' : TranscriptionStore) (n : ℕ)
    (h : transcribeAudio db rid useP dur outs lo = (.ok r, db', n)) :
    db'.lookup rid = some r := by
  cases hlk : db.lookup rid with
  | some r0 =>
    simp only [transcribeAudio, hlk] at h
    simp only [Prod.mk.injEq, Except.ok.injEq] at h
    rcases h with ⟨rfl, rfl, -⟩
    exact hlk
  | none =>
    cases useP with
    | false =>
      simp only [transcribeAudio, hlk, transcribeAudioLegacy, Bool.false_eq_true,
        if_false] at h
      split_ifs at h with h1 h2
      · simp at h
      · simp at h
      · simp only [Prod.mk.injEq, Except.ok.injEq] at h
        rcases h with ⟨rfl, rfl, -⟩
        rw [List.lookup_append, hlk]
        simp [List.lookup]
    | true =>
      simp only [transcribeAudio, hlk, transcribeAudioProduction, eq_self_iff_true,
        if_true] at h
      cases htr : (transcribeRun 5 outs).transcript with
      | none =>
        simp only [htr] at h
        simp at h
      | some text =>
        simp only [htr] at h
        split_ifs at h with hq
        · simp only [Prod.mk.injEq, Except.ok.injEq] at h
          rcases h with ⟨rfl, rfl, -⟩
          rw [List.lookup_append, hlk]
          simp [List.lookup]
        · simp at h

/-- A pipeline run either leaves the store unchanged or appends exactly
one record under a previously absent recording id. -/
lemma transcribeAudio_store (db : TranscriptionStore) (rid : String) (useP : Bool)
    (dur : ℚ) (outs : List CallOutcome) (lo : LegacyTranscriberOutput) :
    (transcribeAudio db rid useP dur outs lo).2.1 = db ∨
      (db.lookup rid = none ∧ ∃ rec,
        (transcribeAudio db rid useP dur outs lo).2.1 = db ++ [(rid, rec)]) := by
  cases hlk : db.lookup rid with
  | some r0 =>
    left
    simp [transcribeAudio, hlk]
  | none =>
    cases useP with
    | false =>
      simp only [transcribeAudio, hlk, transcribeAudioLegacy, Bool.false_eq_true, if_false]
      split_ifs with h1 h2
      · left; rfl
      · left; rfl
      · right; exact ⟨trivial, _, rfl⟩
    | true =>
      simp only [transcribeAudio, hlk, transcribeAudioProduction, eq_self_iff_true, if_true]
      cases htr : (transcribeRun 5 outs).transcript with
      | none =>
        left
        simp [htr]
      | some text =>
        simp only [htr]
        split_ifs with hq
        · right; exact ⟨trivial, _, rfl⟩
        · left; rfl

/-- C6: (i) when a record already exists for the recording id, the
pipeline returns it unchanged with zero capability calls; (ii) re-running
the pipeline after any successful run (with any parameters) returns the
same record, leaves the store unchanged, and makes zero capability
calls; (iii) the store keys stay duplicate-free, so at most one record
ever exists per recording id. -/
theorem pipeline_idempotent :
    (∀ (db : TranscriptionStore) (rid : String) (r : TranscriptionRecord) (useP : Bool)
        (dur : ℚ) (outs : List CallOutcome) (lo : LegacyTranscriberOutput),
      db.lookup rid = some r →
      transcribeAudio db rid useP dur outs lo = (.ok r, db, 0)) ∧
    (∀ (db : TranscriptionStore) (rid : String) (useP : Bool) (dur : ℚ)
        (outs : List CallOutcome) (lo : LegacyTranscriberOutput) (r : TranscriptionRecord)
        (db' : TranscriptionStore) (n : ℕ) (useP' : Bool) (dur' : ℚ)
        (outs' : List CallOutcome) (lo' : LegacyTranscriberOutput),
      transcribeAudio db rid useP dur outs lo = (.ok r, db', n) →
      transcribeAudio db' rid useP' dur' outs' lo' = (.ok r, db', 0)) ∧
    (∀ (db : TranscriptionStore) (rid : String) (useP : Bool) (dur : ℚ)
        (outs : List CallOutcome) (lo : LegacyTranscriberOutput),
      (db.map Prod.fst).Nodup →
      (((transcribeAudio db rid useP dur outs lo).2.1).map Prod.fst).Nodup) := by
  refine ⟨?_, ?_, ?_⟩
  · intro db rid r useP dur outs lo h
    simp [transcribeAudio, h]
  · intro db rid useP dur outs lo r db' n useP' dur' outs' lo' h
    have hlk := transcribeAudio_ok_lookup db rid useP dur outs lo r db' n h
    simp [transcribeAudio, hlk]
  · intro db rid useP dur outs lo hnd
    rcases transcribeAudio_store db rid useP dur outs lo with heq | ⟨hnone, rec, heq⟩
    · rw [heq]; exact hnd
    · rw [heq, List.map_append, List.nodup_append]
      refine ⟨hnd, List.nodup_singleton _, ?_⟩
      intro a ha hb
      simp only [List.map_cons, List.map_nil, List.mem_singleton] at hb
      subst hb
      exact (lookup_none_iff _ db).mp hnone ha

/-- Witness for C6: with a record already stored under "rec1", the
pipeline returns it unchanged and makes no capability call. -/
theorem pipeline_idempotent_witness :
    transcribeAudio [("rec1", sampleRecord)] "rec1" true 60 [] sampleLegacy =
      (.ok sampleRecord, [("rec1", sampleRecord)], 0) :=
  pipeline_idempotent.1 [("rec1", sampleRecord)] "rec1" sampleRecord true 60 [] sampleLegacy
    (by decide)

/-- C8 (amended): duration validation lives only in the legacy
(non-production) branch — there, duration < 1 s or > 2 h aborts with the
corresponding validation error before any capability call (zero calls);
the production branch performs no duration validation and issues
capability calls regardless of duration. -/
theorem duration_validation :
    (∀ (db : TranscriptionStore) (rid : String) (dur : ℚ) (outs : List CallOutcome)
        (lo : LegacyTranscriberOutput),
      db.lookup rid = none → dur < 1 →
      transcribeAudio db rid false dur outs lo = (.error .audioTooShort, db, 0)) ∧
    (∀ (db : TranscriptionStore) (rid : String) (dur : ℚ) (outs : List CallOutcome)
        (lo : LegacyTranscriberOutput),
      db.lookup rid = none → 7200 < dur →
      transcribeAudio db rid false dur outs lo = (.error .audioTooLong, db, 0)) ∧
    (∀ (db : TranscriptionStore) (rid : String) (dur : ℚ) (outs : List CallOutcome)
        (lo : LegacyTranscriberOutput),
      db.lookup rid = none → outs ≠ [] →
      1 ≤ (transcribeAudio db rid true dur outs lo).2.2) := by
  refine ⟨?_, ?_, ?_⟩
  · intro db rid dur outs lo hlk hdur
    simp [transcribeAudio, hlk, transcribeAudioLegacy, hdur]
  · intro db rid dur outs lo hlk hdur
    simp [transcribeAudio, hlk, transcribeAudioLegacy, hdur, not_lt.mpr (by linarith : (1 : ℚ) ≤ dur)]
  · intro db rid dur outs lo hlk houts
    obtain ⟨o, outs', rfl⟩ : ∃ o outs', outs = o :: outs' := by
      cases outs with
      | nil => exact absurd rfl houts
      | cons o outs' => exact ⟨o, outs', rfl⟩
    have hcalls : (transcribeAudio db rid true dur (o :: outs') lo).2.2 =
        (transcribeRun 5 (o :: outs')).attempts := by
      simp only [transcribeAudio, hlk, transcribeAudioProduction, eq_self_iff_true, if_true]
      cases htr : (transcribeRun 5 (o :: outs')).transcript with
      | none => simp [htr]
      | some text =>
        simp only [htr]
        split_ifs with hq <;> rfl
    rw [hcalls, transcribeRun, finishResult_attempts]
    have hzip : (TEMPERATURE_SEQUENCE.take 5).zip (o :: outs') =
        (0.2, o) :: (([0.0, 0.4, 0.3, 0.6] : List ℚ).zip outs') := rfl
    rw [hzip]
    exact driverLoop_attempts_pos _ _ initState

/-- C8 counterexample: a half-second recording run through the default
(production) pipeline is not rejected — one capability call is made and
a record is persisted, with no validation failure. -/
theorem duration_validation_counterexample :
    ((1 : ℚ) / 2 < 1) ∧
      (transcribeAudio [] "rec1" true (1/2) [.ok goodText "en"] sampleLegacy).2.2 = 1 ∧
      (transcribeAudio [] "rec1" true (1/2) [.ok goodText "en"] sampleLegacy).1 =
        .ok { recordingId := "rec1", text := goodText, language := some "en",
              confidence := 1, provider := "whisper-production" } :=
  ⟨by decide, by decide, by decide⟩

/-- Witness for C8 (amended): the legacy branch rejects a half-second
recording with zero capability calls; the production branch makes a call
even for the same duration. -/
theorem duration_validation_witness :
    transcribeAudio [] "rec1" false (1/2) [] sampleLegacy =
      (.error .audioTooShort, [], 0) ∧
      1 ≤ (transcribeAudio [] "rec1" true (1/2) [.ok goodText "en"] sampleLegacy).2.2 :=
  ⟨duration_validation.1 [] "rec1" (1/2) [] sampleLegacy rfl (by decide),
    duration_validation.2.2 [] "rec1" (1/2) [.ok goodText "en"] sampleLegacy rfl
      (by decide)⟩

end TakeMyDictation
